import Mathlib

/-!
Verification of getstattic/wp-import (`autoStattic.py`).

This file gives a shallow embedding of the decision logic of the tool:
the paginated fetch-and-aggregate loop (`fetch_wordpress_data`), the
term-id-to-name resolver (`map_term_ids_to_names`), the regex-based
content block splitter and Markdown render loop of `convert_post_to_md`,
the frontmatter assembly of `convert_post_to_md` / `save_as_markdown`,
the custom-taxonomy fetch (`fetch_custom_taxonomies`,
`fetch_terms_by_taxonomy`), and the media-link rewriter
(`process_media_links`).

Modelling conventions:
* Python strings are Lean `String`s; character-level scanning is done on
  `List Char` (`String.data`).
* Python dicts are insertion-ordered association lists; `dset` mirrors
  `dict.__setitem__` (update in place if the key exists, else append),
  `dget?`/`dgetD` mirror `dict.get`.
* The third-party `html2text` converter is an opaque parameter
  `handle : String → String`; every theorem about the render pipeline is
  universally quantified over it.
* HTTP interaction is modelled by explicit response lists/functions; a
  non-2xx status (`raise_for_status`), a JSON decode failure, or any
  other exception caught by the fetch loop is the constructor
  `PageResp.err`.
-/

namespace WpImport

/-- Python `str.strip()` whitespace predicate on the characters that can
occur in the strings handled here (ASCII whitespace). -/
def pySpace (c : Char) : Bool :=
  c = ' ' || c = '\t' || c = '\n' || c = '\r' || c = '\x0b' || c = '\x0c'

/-- Python `str.strip()` on a character list: drop leading and trailing
whitespace. -/
def pyStripL (l : List Char) : List Char :=
  ((l.dropWhile pySpace).reverse.dropWhile pySpace).reverse

/-- Python `str.strip()` on a string. -/
def pyStrip (s : String) : String :=
  String.mk (pyStripL s.data)

/-- Concatenation of a list of strings (used to state render results). -/
def strConcat : List String → String
  | [] => ""
  | x :: xs => x ++ strConcat xs

/-- A WordPress REST term record: the `{'id': ..., 'name': ...}` dicts
built by `fetch_terms_by_taxonomy` (source lines 163-167). -/
structure Term where
  id : Nat
  name : String
  deriving DecidableEq

section AssocOps

variable {α : Type} {β : Type} [BEq α]

/-- Python `dict.get(k)`: value at the first matching key, if any. -/
def dget? (d : List (α × β)) (k : α) : Option β :=
  (d.find? (fun p => p.1 == k)).map (fun p => p.2)

/-- Python `dict.get(k, default)`. -/
def dgetD (d : List (α × β)) (k : α) (v : β) : β :=
  (dget? d k).getD v

/-- Python `k in dict`. -/
def dhas (d : List (α × β)) (k : α) : Bool :=
  d.any (fun p => p.1 == k)

/-- Python `dict[k] = v` on an insertion-ordered dict: replace the value
in place when the key is present, otherwise append the new pair. -/
def dset (d : List (α × β)) (k : α) (v : β) : List (α × β) :=
  if dhas d k then d.map (fun p => if p.1 == k then (k, v) else p)
  else d ++ [(k, v)]

/-- The key sequence of an insertion-ordered dict. -/
def dkeys (d : List (α × β)) : List α :=
  d.map (fun p => p.1)

end AssocOps

/-! ## Paginated fetcher (`fetch_wordpress_data`, source lines 28-64)

The server is modelled as the list of responses it would give to
requests for pages 1, 2, 3, ...: the element at position `i` of the
list is the response to `page = i + 1`.  `PageResp.err` models a
non-2xx response (`response.raise_for_status()` raising `HTTPError`),
a malformed body (`response.json()` raising `JSONDecodeError`), or any
other exception — all are caught by the `except` arms at lines 52-60,
which log and `break`.  The loop body in order: raise_for_status /
json (err ⇒ stop with data so far), `if not items: break` (stop, the
empty page contributes nothing), `data.extend(items)`, and
`if len(items) < per_page: break` (stop after keeping the short page);
otherwise `page += 1` and continue.  `fetch_loop` additionally records
the page numbers requested, so that "no retry / no further request"
claims are statable; a real interaction always ends with an error, an
empty page or a short page, so the `[]` case (server list exhausted) is
never reached in the theorems below. -/

inductive PageResp (α : Type) where
  | err
  | ok (items : List α)

/-- The pagination loop of `fetch_wordpress_data`, instrumented with the
list of page numbers requested.  `page` is the next page number to
request. -/
def fetch_loop {α : Type} (per_page : Nat) : Nat → List (PageResp α) → List α × List Nat
  | _, [] => ([], [])
  | page, PageResp.err :: _ => ([], [page])
  | page, PageResp.ok items :: rest =>
    if items.isEmpty then ([], [page])
    else if items.length < per_page then (items, [page])
    else
      let r := fetch_loop per_page (page + 1) rest
      (items ++ r.1, page :: r.2)

/-- `fetch_wordpress_data(domain_url, endpoint, per_page)`: aggregated
items, starting from page 1. -/
def fetch_wordpress_data {α : Type} (per_page : Nat) (pages : List (PageResp α)) : List α :=
  (fetch_loop per_page 1 pages).1

/-- The page numbers the loop of `fetch_wordpress_data` requests, in
order. -/
def fetch_pages_requested {α : Type} (per_page : Nat) (pages : List (PageResp α)) : List Nat :=
  (fetch_loop per_page 1 pages).2

lemma range'_concat_own (s n : Nat) : List.range' s n ++ [s + n] = List.range' s (n + 1) := by
  induction n generalizing s with
  | zero => simp [List.range']
  | succ n ih =>
    show s :: List.range' (s + 1) n ++ [s + (n + 1)] = s :: List.range' (s + 1) (n + 1)
    rw [List.cons_append]
    congr 1
    rw [show s + (n + 1) = (s + 1) + n from by omega]
    exact ih (s + 1)

/-- Behaviour of the loop on a prefix of full pages: all full pages are
kept, all corresponding page numbers are requested, and the loop
continues into the remaining responses. -/
lemma fetch_loop_full_prefix {α : Type} (per_page : Nat) (full : List (List α))
    (tail : List (PageResp α)) (hpp : 0 < per_page)
    (hfull : ∀ p ∈ full, p.length = per_page) :
    ∀ page, fetch_loop per_page page (full.map PageResp.ok ++ tail) =
      (full.flatten ++ (fetch_loop per_page (page + full.length) tail).1,
       List.range' page full.length ++ (fetch_loop per_page (page + full.length) tail).2) := by
  induction full with
  | nil => intro page; simp [List.range']
  | cons p t ih =>
    intro page
    have hp : p.length = per_page := hfull p (by simp)
    have hpne : p ≠ [] := by
      intro h
      rw [h] at hp
      simp at hp
      omega
    have hne : p.isEmpty = false := by
      cases p with
      | nil => exact absurd rfl hpne
      | cons a l => rfl
    have hnlt : ¬ p.length < per_page := by omega
    have ht : ∀ q ∈ t, q.length = per_page := fun q hq => hfull q (by simp [hq])
    simp only [List.map_cons, List.cons_append, fetch_loop, hne, Bool.false_eq_true,
      if_false, hnlt, List.flatten_cons, List.append_eq]
    rw [ih ht (page + 1)]
    simp only [Prod.mk.injEq]
    constructor
    · simp only [List.append_assoc]
      rw [show page + 1 + t.length = page + (t.length + 1) from by omega]
      simp
    · simp only [List.range', List.length_cons, List.cons_append]
      rw [show page + 1 + t.length = page + (t.length + 1) from by omega]

/-- Claim C2: the fetcher requests pages `1, 2, ...` in order with the
given page size, keeps every page's items in server order, and stops
exactly at the first page that is empty or strictly shorter than
`per_page` (that short page's items are kept); no later page is
requested. -/
theorem fetch_stops_after_short_page {α : Type} (per_page : Nat) (full : List (List α))
    (last : List α) (rest : List (PageResp α)) (hpp : 0 < per_page)
    (hfull : ∀ p ∈ full, p.length = per_page) (hlast : last.length < per_page) :
    fetch_wordpress_data per_page (full.map PageResp.ok ++ PageResp.ok last :: rest) =
      full.flatten ++ last ∧
    fetch_pages_requested per_page (full.map PageResp.ok ++ PageResp.ok last :: rest) =
      List.range' 1 (full.length + 1) := by
  have h := fetch_loop_full_prefix per_page full (PageResp.ok last :: rest) hpp hfull 1
  have htail : fetch_loop per_page (1 + full.length) (PageResp.ok last :: rest) =
      (last, [1 + full.length]) := by
    cases he : last.isEmpty with
    | true =>
      have : last = [] := by cases last with
        | nil => rfl
        | cons a l => simp [List.isEmpty] at he
      simp [fetch_loop, he, this]
    | false => simp [fetch_loop, he, hlast]
  unfold fetch_wordpress_data fetch_pages_requested
  rw [h, htail]
  exact ⟨rfl, range'_concat_own 1 full.length⟩

/-- Witness for C2 at the spec's concrete scenario: pages of sizes
[100, 100, 42] (with a would-be fourth page available) yield exactly the
242 items of the three pages in order, and only pages 1, 2, 3 are
requested. -/
theorem fetch_stops_after_short_page_witness :
    fetch_wordpress_data 100
        (([List.replicate 100 0, List.replicate 100 1].map PageResp.ok) ++
          PageResp.ok (List.replicate 42 2) :: [PageResp.ok (List.replicate 100 3)]) =
      [List.replicate 100 0, List.replicate 100 1].flatten ++ List.replicate 42 2 ∧
    fetch_pages_requested 100
        (([List.replicate 100 0, List.replicate 100 1].map PageResp.ok) ++
          PageResp.ok (List.replicate 42 2) :: [PageResp.ok (List.replicate 100 3)]) =
      List.range' 1 3 ∧
    ([List.replicate 100 0, List.replicate 100 1].flatten ++ (List.replicate 42 2 : List Nat)).length
      = 242 := by
  have h := fetch_stops_after_short_page 100 [List.replicate 100 0, List.replicate 100 1]
    (List.replicate 42 2) [PageResp.ok (List.replicate 100 3)] (by omega)
    (by
      intro p hp
      rcases List.mem_cons.mp hp with rfl | hp
      · simp
      rcases List.mem_cons.mp hp with rfl | hp
      · simp
      · cases hp)
    (by rw [List.length_replicate]; omega)
  refine ⟨h.1, h.2, ?_⟩
  simp only [List.flatten_cons, List.flatten_nil, List.append_nil, List.length_append,
    List.length_replicate]

/-- Claim C3: if page `n` answers with a non-2xx status or a malformed
body (after `n - 1` full pages), the fetcher returns normally with
exactly the items of pages `1 .. n-1`, requests page `n` exactly once,
and requests nothing after it. -/
theorem fetch_error_keeps_partial_data {α : Type} (per_page : Nat) (full : List (List α))
    (rest : List (PageResp α)) (hpp : 0 < per_page)
    (hfull : ∀ p ∈ full, p.length = per_page) :
    fetch_wordpress_data per_page (full.map PageResp.ok ++ PageResp.err :: rest) = full.flatten ∧
    fetch_pages_requested per_page (full.map PageResp.ok ++ PageResp.err :: rest) =
      List.range' 1 (full.length + 1) := by
  have h := fetch_loop_full_prefix per_page full (PageResp.err :: rest) hpp hfull 1
  have htail : fetch_loop per_page (1 + full.length) (PageResp.err :: rest) =
      (([] : List α), [1 + full.length]) := rfl
  unfold fetch_wordpress_data fetch_pages_requested
  rw [h, htail]
  exact ⟨by simp, range'_concat_own 1 full.length⟩

/-- Witness for C3: one full page of 100 items, then an HTTP error on
page 2 (with a would-be page 3 behind it): the 100 items of page 1 are
returned, pages 1 and 2 are the only requests. -/
theorem fetch_error_keeps_partial_data_witness :
    fetch_wordpress_data 100
        (([List.replicate 100 0].map PageResp.ok) ++ PageResp.err :: [PageResp.ok (List.replicate 100 9)]) =
      [List.replicate 100 0].flatten ∧
    fetch_pages_requested 100
        (([List.replicate 100 0].map PageResp.ok) ++ PageResp.err :: [PageResp.ok (List.replicate 100 9)]) =
      List.range' 1 2 := by
  exact fetch_error_keeps_partial_data 100 [List.replicate 100 0]
    [PageResp.ok (List.replicate 100 9)] (by omega)
    (by
      intro p hp
      rcases List.mem_cons.mp hp with rfl | hp
      · simp
      · cases hp)

/-! ## Term-id resolution (`map_term_ids_to_names`, source lines 66-68) -/

/-- `map_term_ids_to_names(ids, terms)` (source line 68):
`[terms.get(term_id, {'id': term_id, 'name': f"Unknown (ID: {term_id})"})['name'] for term_id in ids]`. -/
def map_term_ids_to_names (ids : List Nat) (terms : List (Nat × Term)) : List String :=
  ids.map (fun term_id =>
    (dgetD terms term_id ⟨term_id, "Unknown (ID: " ++ toString term_id ++ ")"⟩).name)

/-- Claim C4: the resolver returns one name per input id, in input
order: position `i` of the output holds the table's name for `ids[i]`
when the id is in the table, and the placeholder "Unknown (ID: <id>)"
otherwise; the spec's example `[5, 99]` against a table holding only
id 5 ↦ "News" gives `["News", "Unknown (ID: 99)"]`. -/
theorem map_term_ids_to_names_pointwise :
    (∀ (ids : List Nat) (terms : List (Nat × Term)),
      (map_term_ids_to_names ids terms).length = ids.length ∧
      ∀ i : Nat, (map_term_ids_to_names ids terms)[i]? =
        (ids[i]?).map (fun term_id =>
          match dget? terms term_id with
          | some t => t.name
          | none => "Unknown (ID: " ++ toString term_id ++ ")")) ∧
    map_term_ids_to_names [5, 99] [(5, ⟨5, "News"⟩)] = ["News", "Unknown (ID: 99)"] := by
  constructor
  · intro ids terms
    constructor
    · simp [map_term_ids_to_names]
    · intro i
      rw [map_term_ids_to_names, List.getElem?_map]
      cases ids[i]? with
      | none => rfl
      | some term_id =>
        simp only [Option.map_some']
        congr 1
        unfold dgetD dget?
        cases terms.find? (fun p => p.1 == term_id) with
        | none => rfl
        | some p => rfl
  · rfl

/-! ## Media link rewriting (`process_media_links`, source lines 85-88)

The source applies
`re.sub(r'!\x5c[(.*?)\x5c]\x5c((https://example.com/wp-content/uploads/(.*?)\x5c))', r'!\x5c[\x5c1\x5c](\x5c3)', content)`
and never reads its `media_base_url` parameter.  The regex (no DOTALL
flag, so `.` does not cross a newline) matches
`![` group1 `](https://example.com/wp-content/uploads/` group3 `)` where
group1 is the shortest newline-free run followed by the literal
`](https://example.com/wp-content/uploads/` from which the rest of the
pattern matches, and group3 is the shortest newline-free run up to the
first `)`.  In a `re.sub` replacement template a backslash before a
non-alphanumeric character is kept literally, so the template emits
backslash `[` group1 backslash `](` group3 `)` — the backslashes before
the brackets appear in the output (checked against CPython's `re`).
`mediaFindSep` scans for the earliest viable position of that literal
separator (Python's backtracking over the non-greedy group1), and
`mediaScan` performs the global left-to-right non-overlapping
substitution. -/

/-- The literal part of the media regex between group1 and group3. -/
def mediaSep : List Char := "](https://example.com/wp-content/uploads/".data

/-- First index of a `)` in the newline-free window at the head of the
list (group3 of the media regex plus its closing literal). -/
def mediaCloseParen : List Char → Option Nat
  | [] => none
  | c :: rest =>
    if c = ')' then some 0
    else if c = '\n' then none
    else (mediaCloseParen rest).map (fun j => j + 1)

/-- One backtracking attempt of the media regex at the current start:
scan for the earliest occurrence of `mediaSep` reachable through a
newline-free group1 such that a newline-free group3 closed by `)`
follows; returns (group1, group3, remaining input). -/
def mediaFindSep : List Char → List Char → Option (List Char × List Char × List Char)
  | [], _ => none
  | c :: rest, acc =>
    let t := c :: rest
    let attempt :=
      if mediaSep.isPrefixOf t then
        let u := t.drop mediaSep.length
        (mediaCloseParen u).map (fun j => (acc.reverse, u.take j, u.drop (j + 1)))
      else none
    match attempt with
    | some r => some r
    | none => if c = '\n' then none else mediaFindSep rest (c :: acc)

/-- A match of the media regex starting exactly at the head of the
input: returns (replacement text, input after the match). -/
def mediaMatchAt : List Char → Option (List Char × List Char)
  | '!' :: '[' :: t =>
    (mediaFindSep t []).map (fun r =>
      ("!\\[".data ++ r.1 ++ "\\](".data ++ r.2.1 ++ [')'], r.2.2))
  | _ => none

/-- `re.sub` scan: at each position try a match; on success emit the
replacement and continue after the match, otherwise keep the character.
Fuel is the remaining length; a successful match consumes at least two
characters, so `fuel = input.length` never runs out. -/
def mediaScan : Nat → List Char → List Char
  | 0, s => s
  | _ + 1, [] => []
  | fuel + 1, c :: rest =>
    match mediaMatchAt (c :: rest) with
    | some r => r.1 ++ mediaScan fuel r.2
    | none => c :: mediaScan fuel rest

/-- `process_media_links(content, media_base_url)` (source lines 85-88).
The `media_base_url` parameter is bound but never used by the source:
the substitution is anchored to the hard-coded
`https://example.com/wp-content/uploads/` prefix. -/
def process_media_links (content : String) (media_base_url : String) : String :=
  String.mk (mediaScan content.data.length content.data)

/-- Claim C10: `process_media_links` is independent of its
`media_base_url` argument — the output is the same for any two values of
it — because only Markdown image references under the literal
`https://example.com/wp-content/uploads/` prefix are rewritten, with the
prefix stripped from the URL (the replacement template additionally
leaves literal backslashes before the brackets); an image reference
under any other host is returned unchanged, as the two concrete runs
show. -/
theorem process_media_links_ignores_base_url :
    (∀ (content u1 u2 : String),
      process_media_links content u1 = process_media_links content u2) ∧
    process_media_links "![alt](https://example.com/wp-content/uploads/2024/img.png)"
        "https://my-site.example" = "!\\[alt\\](2024/img.png)" ∧
    process_media_links "![alt](https://other.example/wp-content/uploads/2024/img.png)"
        "https://my-site.example" =
      "![alt](https://other.example/wp-content/uploads/2024/img.png)" := by
  refine ⟨fun content u1 u2 => rfl, ?_, ?_⟩
  · rfl
  · rfl

/-! ## Content block splitter and render loop
(`convert_post_to_md`, source lines 100-113)

The source computes
`blocks = re.split(r'(<div[^>]*wp-block[^>]*>.*?</div>)', html_content, flags=re.DOTALL)`
and then, for each piece, appends the piece stripped (plus a blank
line) when `re.search(r'wp-block', block)` succeeds, and otherwise the
`html2text` conversion of the piece, stripped (plus a blank line), in
Markdown mode — or the stripped piece itself when Markdown mode is off.

Regex semantics of the delimiter (checked against CPython's `re`): a
match starts at a position carrying the literal `<div`; the characters
from there to the first following `>` must contain `wp-block` (the two
`[^>]*` runs cannot cross a `>`); with DOTALL, `.*?</div>` then extends
the match minimally up to and including the first `</div>`.  `re.split`
scans left to right for non-overlapping leftmost matches; with the
whole pattern parenthesized the result alternates non-match text and
matched delimiters, beginning and ending with (possibly empty)
non-match text.  `scanSegsF` reproduces this, tagging non-match pieces
`Seg.plain` and matched delimiters `Seg.structured`. -/

/-- First index at which `pat` occurs in the list, if any. -/
def findSub (pat : List Char) : List Char → Option Nat
  | [] => none
  | c :: rest =>
    if pat.isPrefixOf (c :: rest) then some 0
    else (findSub pat rest).map (fun j => j + 1)

/-- Python `re.search` of a plain-text pattern: does `pat` occur
anywhere in the list? -/
def containsSub (pat : List Char) : List Char → Bool
  | [] => pat.isEmpty
  | c :: rest => pat.isPrefixOf (c :: rest) || containsSub pat rest

/-- A match of the Gutenberg-block regex starting exactly at the head of
the input: returns (matched delimiter text, input after the match). -/
def matchBlockAt (s : List Char) : Option (List Char × List Char) :=
  if "<div".data.isPrefixOf s then
    let t := s.drop 4
    let span := t.takeWhile (fun c => c != '>')
    if containsSub "wp-block".data span then
      if span.length < t.length then
        let u := t.drop (span.length + 1)
        match findSub "</div>".data u with
        | some j => some ("<div".data ++ span ++ '>' :: (u.take j ++ "</div>".data), u.drop (j + 6))
        | none => none
      else none
    else none
  else none

/-- A piece of the `re.split` result: non-match text (`plain`) or a
matched delimiter (`structured`) — the spec's ContentSegment. -/
inductive Seg where
  | plain (t : List Char)
  | structured (t : List Char)
  deriving DecidableEq

/-- The raw text of a segment. -/
def Seg.text : Seg → List Char
  | plain t => t
  | structured t => t

/-- The `re.split` scan: walk the input left to right; at each position
emit the pending non-match text and the matched delimiter when the
delimiter regex matches, else advance one character.  `acc` is the
pending non-match text, reversed.  Fuel bounds the walk; every step
consumes input, so `length + 1` fuel never runs out. -/
def scanSegsF : Nat → List Char → List Char → List Seg
  | 0, s, acc => [Seg.plain (acc.reverse ++ s)]
  | _ + 1, [], acc => [Seg.plain acc.reverse]
  | fuel + 1, c :: rest, acc =>
    match matchBlockAt (c :: rest) with
    | some r => Seg.plain acc.reverse :: Seg.structured r.1 :: scanSegsF fuel r.2 []
    | none => scanSegsF fuel rest (c :: acc)

/-- The tagged `re.split` of a content body by the Gutenberg-block
delimiter regex. -/
def wpSegs (s : List Char) : List Seg :=
  scanSegsF (s.length + 1) s []

/-- `blocks = re.split(...)` (source line 100): the split pieces as
strings, in order, tags dropped (the source iterates the flat list). -/
def splitBlocks (s : String) : List String :=
  (wpSegs s.data).map (fun g => String.mk g.text)

/-- The body of the render loop (source lines 104-113) for one piece:
raw passthrough when the piece contains `wp-block`, else `html2text`
conversion when Markdown mode is on, else raw passthrough; each stripped
and terminated by a blank line. -/
def renderPiece (handle : String → String) (use_markdown : Bool) (t : List Char) : String :=
  if containsSub "wp-block".data t then String.mk (pyStripL t) ++ "\n\n"
  else if use_markdown then pyStrip (handle (String.mk t)) ++ "\n\n"
  else String.mk (pyStripL t) ++ "\n\n"

/-- The render loop of `convert_post_to_md` (source lines 103-113):
`converted_content` starts empty and each piece's rendering is appended
in order. -/
def convert_body (handle : String → String) (use_markdown : Bool) (html_content : String) : String :=
  ((wpSegs html_content.data).map Seg.text).foldl
    (fun acc t => acc ++ renderPiece handle use_markdown t) ""

/-- Modelled from the spec (claim C5's reading of §4.3/§4.4): structured
segments are emitted verbatim (trimmed of surrounding whitespace); every
plain segment is converted to Markdown, unconditionally. -/
def renderSegSpec (handle : String → String) : Seg → String
  | Seg.structured t => String.mk (pyStripL t) ++ "\n\n"
  | Seg.plain t => pyStrip (handle (String.mk t)) ++ "\n\n"

/-- Modelled from the spec: the split-render-join pipeline as claim C5
states it (Markdown mode on). -/
def convert_body_spec (handle : String → String) (html_content : String) : String :=
  strConcat ((wpSegs html_content.data).map (renderSegSpec handle))

/-- The amended per-segment rendering: structured segments verbatim
(trimmed); a plain segment is converted to Markdown unless it itself
contains the `wp-block` marker substring, in which case it too is passed
through raw (trimmed). -/
def renderSegAmended (handle : String → String) : Seg → String
  | Seg.structured t => String.mk (pyStripL t) ++ "\n\n"
  | Seg.plain t =>
    if containsSub "wp-block".data t then String.mk (pyStripL t) ++ "\n\n"
    else pyStrip (handle (String.mk t)) ++ "\n\n"

/-- Claim C6 fails on the code: splitting an empty content body yields
one empty Plain segment — `re.split` on `""` returns `[""]` — not an
empty sequence of segments. -/
theorem split_empty_body_counterexample :
    splitBlocks "" = [""] ∧ splitBlocks "" ≠ ([] : List String) := by
  exact ⟨rfl, by decide⟩

/-- Claim C6 amended: splitting an empty content body yields exactly one
Plain segment of empty text (not an empty sequence), while Plain
segments of empty or whitespace-only text arising between structured
blocks are kept rather than filtered out (here: the empty piece before
the first block, the whitespace-only piece between the two blocks, and
the empty piece after the second). -/
theorem split_empty_body_amended :
    wpSegs ("" : String).data = [Seg.plain []] ∧
    splitBlocks "<div wp-block-a>X</div> <div wp-block-b>Y</div>" =
      ["", "<div wp-block-a>X</div>", " ", "<div wp-block-b>Y</div>", ""] := by
  exact ⟨rfl, by decide⟩

lemma containsSub_iff (pat : List Char) (l : List Char) :
    containsSub pat l = true ↔ pat <:+: l := by
  induction l with
  | nil => simp [containsSub, List.isEmpty_iff, List.infix_nil]
  | cons c rest ih =>
    show (pat.isPrefixOf (c :: rest) || containsSub pat rest) = true ↔ _
    rw [Bool.or_eq_true, ih, List.isPrefixOf_iff_prefix, List.infix_cons_iff]

lemma matchBlockAt_none_of_no_marker (s : List Char)
    (h : containsSub "wp-block".data s = false) : matchBlockAt s = none := by
  cases hpre : "<div".data.isPrefixOf s with
  | false => simp [matchBlockAt, hpre]
  | true =>
    have hspan_infix : ((s.drop 4).takeWhile (fun c => c != '>')) <:+: s := by
      have h1 : ((s.drop 4).takeWhile (fun c => c != '>')) <+: (s.drop 4) :=
        ⟨(s.drop 4).dropWhile (fun c => c != '>'), List.takeWhile_append_dropWhile _ _⟩
      exact h1.isInfix.trans (List.drop_suffix 4 s).isInfix
    have hspan : containsSub "wp-block".data ((s.drop 4).takeWhile (fun c => c != '>')) = false := by
      cases hcs : containsSub "wp-block".data ((s.drop 4).takeWhile (fun c => c != '>')) with
      | false => rfl
      | true =>
        have h2 : containsSub "wp-block".data s = true :=
          (containsSub_iff _ _).mpr (((containsSub_iff _ _).mp hcs).trans hspan_infix)
        rw [h] at h2
        exact Bool.noConfusion h2
    simp [matchBlockAt, hpre, hspan]

lemma scanSegsF_no_marker :
    ∀ (fuel : Nat) (s acc : List Char), s.length < fuel →
      containsSub "wp-block".data s = false →
      scanSegsF fuel s acc = [Seg.plain (acc.reverse ++ s)] := by
  intro fuel
  induction fuel with
  | zero => intro s acc h _; exact absurd h (Nat.not_lt_zero _)
  | succ fuel ih =>
    intro s acc hlen hno
    cases s with
    | nil => simp [scanSegsF]
    | cons c rest =>
      have hm : matchBlockAt (c :: rest) = none := matchBlockAt_none_of_no_marker _ hno
      have hno' : containsSub "wp-block".data rest = false := by
        cases hcs : containsSub "wp-block".data rest with
        | false => rfl
        | true =>
          have h2 : containsSub "wp-block".data (c :: rest) = true :=
            (containsSub_iff _ _).mpr
              (((containsSub_iff _ _).mp hcs).trans (List.suffix_cons c rest).isInfix)
          rw [hno] at h2
          exact Bool.noConfusion h2
      have hlen' : rest.length < fuel := by
        simp only [List.length_cons] at hlen
        omega
      simp only [scanSegsF, hm]
      rw [ih rest (c :: acc) hlen' hno']
      simp

lemma wpSegs_no_marker (s : List Char) (h : containsSub "wp-block".data s = false) :
    wpSegs s = [Seg.plain s] := by
  unfold wpSegs
  rw [scanSegsF_no_marker (s.length + 1) s [] (by omega) h]
  simp

lemma foldl_append_concat (f : List Char → String) :
    ∀ (l : List (List Char)) (a : String),
      l.foldl (fun acc t => acc ++ f t) a = a ++ strConcat (l.map f) := by
  intro l
  induction l with
  | nil => intro a; simp [strConcat, String.append_empty]
  | cons x t ih =>
    intro a
    simp only [List.foldl_cons, List.map_cons, strConcat]
    rw [ih (a ++ f x), String.append_assoc]

/-- Claim C9: on a body containing no `wp-block` marker, the split
produces a single Plain segment covering the whole body, so the pipeline
applies the Markdown transformation exactly once, to the whole body: the
output is that single application's result under the loop's uniform
strip-and-blank-line framing, and the segmentation contributes nothing
else. -/
theorem convert_body_single_segment (handle : String → String) (s : String)
    (h : containsSub "wp-block".data s.data = false) :
    convert_body handle true s = pyStrip (handle s) ++ "\n\n" := by
  unfold convert_body
  rw [wpSegs_no_marker s.data h]
  simp only [List.map_cons, List.map_nil, List.foldl_cons, List.foldl_nil, Seg.text]
  simp only [renderPiece, h, Bool.false_eq_true, if_false, if_true]
  rfl

/-- Witness for C9: a marker-free body, with `html2text` instantiated to
a concrete conversion. -/
theorem convert_body_single_segment_witness :
    containsSub "wp-block".data ("<p>Hello</p>" : String).data = false ∧
    convert_body (fun _ => "*Hello*") true "<p>Hello</p>" = "*Hello*\n\n" := by
  refine ⟨by decide, ?_⟩
  rw [convert_body_single_segment (fun _ => "*Hello*") "<p>Hello</p>" (by decide)]
  rfl

lemma matchBlockAt_marker (s : List Char) (r : List Char × List Char)
    (h : matchBlockAt s = some r) : containsSub "wp-block".data r.1 = true := by
  simp only [matchBlockAt] at h
  split at h
  · next hpre =>
    split at h
    · next hinf =>
      split at h
      · next hlen =>
        split at h
        · next j hj =>
          rw [Option.some.injEq] at h
          rw [← h]
          apply (containsSub_iff _ _).mpr
          refine (((containsSub_iff _ _).mp hinf).trans ?_)
          exact ⟨"<div".data,
            '>' :: (((s.drop 4).drop (((s.drop 4).takeWhile (fun c => c != '>')).length + 1)).take j
              ++ "</div>".data), rfl⟩
        · exact Option.noConfusion h
      · exact Option.noConfusion h
    · exact Option.noConfusion h
  · exact Option.noConfusion h

lemma scanSegsF_structured_marker :
    ∀ (fuel : Nat) (s acc t : List Char),
      Seg.structured t ∈ scanSegsF fuel s acc →
      containsSub "wp-block".data t = true := by
  intro fuel
  induction fuel with
  | zero => intro s acc t h; simp [scanSegsF] at h
  | succ fuel ih =>
    intro s acc t h
    cases s with
    | nil => simp [scanSegsF] at h
    | cons c rest =>
      rw [scanSegsF] at h
      cases hm : matchBlockAt (c :: rest) with
      | some r =>
        rw [hm] at h
        simp only [List.mem_cons] at h
        rcases h with h | h | h
        · exact absurd h (by simp)
        · rw [Seg.structured.injEq] at h
          rw [h]
          exact matchBlockAt_marker _ _ hm
        · exact ih _ _ _ h
      | none =>
        rw [hm] at h
        exact ih _ _ _ h

lemma map_congr_mem {α β : Type} (l : List α) (f g : α → β)
    (h : ∀ a ∈ l, f a = g a) : l.map f = l.map g := by
  induction l with
  | nil => rfl
  | cons x t ih =>
    simp only [List.map_cons]
    rw [h x (by simp), ih (fun a ha => h a (by simp [ha]))]

/-- Claim C5 fails as stated, but holds amended: with Markdown mode on,
the rendered output is the blank-line-joined sequence in which every
structured segment (a matched `wp-block` container) is reproduced
verbatim, trimmed only of surrounding whitespace and with no
HTML-to-Markdown transformation, and every plain segment is
Markdown-converted unless it itself contains the `wp-block` marker
substring, in which case it too is passed through raw (the loop re-tests
`re.search('wp-block', block)` on every piece). -/
theorem convert_body_amended (handle : String → String) (s : String) :
    convert_body handle true s = strConcat ((wpSegs s.data).map (renderSegAmended handle)) := by
  unfold convert_body
  rw [foldl_append_concat, List.map_map]
  show strConcat _ = _
  congr 1
  apply map_congr_mem
  intro g hg
  cases g with
  | plain t => rfl
  | structured t =>
    have hmark := scanSegsF_structured_marker _ _ _ t hg
    simp [renderPiece, renderSegAmended, Seg.text, hmark, Function.comp]

/-- Claim C5 as stated is false on the code: in the body
`<p>wp-block</p><div class=wp-block-a>X</div>`, the surrounding
non-structured span `<p>wp-block</p>` contains the marker substring and
is passed through raw instead of being Markdown-converted, so the loop's
output differs from the spec's split-render-join (here with the concrete
converter that maps every input to "MD"). -/
theorem convert_body_spec_counterexample :
    convert_body (fun _ => "MD") true "<p>wp-block</p><div class=wp-block-a>X</div>" ≠
      convert_body_spec (fun _ => "MD") "<p>wp-block</p><div class=wp-block-a>X</div>" := by
  decide

/-! ## Frontmatter assembly
(`convert_post_to_md` lines 118-151, `save_as_markdown` lines 70-83)

A post record is an insertion-ordered dict of JSON-like values.  The
extraction helpers model the corresponding `post.get(...)` chains; the
source assumes WordPress-shaped data (e.g. `post['title']` is a dict
with a `rendered` key, `post['author']` is an int, `post['categories']`
is a list of ints); on differently-shaped data the Python would raise
(`AttributeError`/`TypeError`), which the helpers model by the same
defaults as the absent-key case — no theorem below instantiates those
shapes. -/

/-- A JSON-like value as carried in a WordPress REST record. -/
inductive Value where
  | null
  | nat (n : Nat)
  | str (s : String)
  | list (xs : List Value)
  | obj (fields : List (String × Value))

/-- Python truthiness (`if acf_data:`) for the values above. -/
def truthy : Value → Bool
  | Value.null => false
  | Value.nat n => n != 0
  | Value.str s => s != ""
  | Value.list xs => !xs.isEmpty
  | Value.obj fs => !fs.isEmpty

/-- `post.get('title', {}).get('rendered', 'Untitled')` (source line
123), and the unwrap in `save_as_markdown` (lines 73-76). -/
def getRenderedTitle (v : Option Value) : Value :=
  match v with
  | some (Value.obj fs) => (dget? fs "rendered").getD (Value.str "Untitled")
  | some w => w
  | none => Value.str "Untitled"

/-- `post.get('excerpt', {}).get('rendered', '')` (source line 130). -/
def getRenderedStr (v : Option Value) : String :=
  match v with
  | some (Value.obj fs) =>
    match dget? fs "rendered" with
    | some (Value.str s) => s
    | _ => ""
  | _ => ""

/-- An integer field, defaulting as `post.get(..., 0)` does. -/
def asNatD0 (v : Option Value) : Nat :=
  match v with
  | some (Value.nat n) => n
  | _ => 0

/-- A term-id list field, defaulting as `post.get(..., [])` does. -/
def getIds (v : Option Value) : List Nat :=
  match v with
  | some (Value.list xs) => xs.filterMap (fun x => match x with
      | Value.nat n => some n
      | _ => none)
  | _ => []

/-- The exclusion list of the catch-all metadata fold (source line 150):
`['content', 'excerpt', 'guid', '_links', '_embedded', 'acf']`. -/
def excludedKeys : List String :=
  ["content", "excerpt", "guid", "_links", "_embedded", "acf"]

/-- One step of the custom-taxonomy loop (source lines 145-147):
`if taxonomy in post: frontmatter[taxonomy] = map_term_ids_to_names(post.get(taxonomy, []), terms)`. -/
def ctaxStep (post : List (String × Value)) (fm : List (String × Value))
    (p : String × List (Nat × Term)) : List (String × Value) :=
  if dhas post p.1 then
    dset fm p.1 (Value.list ((map_term_ids_to_names (getIds (dget? post p.1)) p.2).map Value.str))
  else fm

/-- One step of `frontmatter.update(filtered_metadata)` (source line
151): insertion-ordered dict assignment. -/
def updateStep (fm : List (String × Value)) (p : String × Value) : List (String × Value) :=
  dset fm p.1 p.2

/-- The base frontmatter dict literal (source lines 118-133): the six
"most important" entries, in source order. -/
def fm_base (handle : String → String) (post : List (String × Value))
    (authors : List (Nat × String)) (post_type : String) : List (String × Value) :=
  [("title", getRenderedTitle (dget? post "title")),
   ("date", (dget? post "date").getD (Value.str "")),
   ("author", Value.str (dgetD authors (asNatD0 (dget? post "author")) "Unknown")),
   ("excerpt", Value.str (pyStrip (handle (getRenderedStr (dget? post "excerpt"))))),
   ("custom_url", (dget? post "slug").getD (Value.str "")),
   ("type", Value.str post_type)]

/-- The base dict after the `categories` and `tags` assignments (source
lines 135-137). -/
def fm_with_terms (handle : String → String) (post : List (String × Value))
    (authors : List (Nat × String)) (categories tags : List (Nat × Term))
    (post_type : String) : List (String × Value) :=
  dset (dset (fm_base handle post authors post_type) "categories"
      (Value.list ((map_term_ids_to_names (getIds (dget? post "categories")) categories).map Value.str)))
    "tags"
    (Value.list ((map_term_ids_to_names (getIds (dget? post "tags")) tags).map Value.str))

/-- The dict after the conditional `acf` attachment (source lines
139-142). -/
def fm_with_acf (handle : String → String) (post : List (String × Value))
    (authors : List (Nat × String)) (categories tags : List (Nat × Term))
    (post_type : String) : List (String × Value) :=
  match dget? post "acf" with
  | some v =>
    if truthy v then dset (fm_with_terms handle post authors categories tags post_type) "acf" v
    else fm_with_terms handle post authors categories tags post_type
  | none => fm_with_terms handle post authors categories tags post_type

/-- The frontmatter dict built by `convert_post_to_md` (source lines
118-151): the base dict literal of line 126, the `categories`/`tags`
assignments (136-137), the conditional `acf` attachment (140-142), the
custom-taxonomy loop (145-147), and the catch-all
`frontmatter.update({k: v for k, v in post.items() if k not in [...]})`
(149-151).  `handle` is the `html2text` conversion used for the
excerpt. -/
def convert_frontmatter (handle : String → String) (post : List (String × Value))
    (authors : List (Nat × String)) (categories tags : List (Nat × Term))
    (custom_taxonomies : List (String × List (Nat × Term))) (post_type : String) :
    List (String × Value) :=
  (post.filter (fun p => !(excludedKeys.contains p.1))).foldl updateStep
    (custom_taxonomies.foldl (ctaxStep post)
      (fm_with_acf handle post authors categories tags post_type))

/-- The title re-unwrap performed by `save_as_markdown` (source lines
73-76) before the frontmatter is dumped. -/
def save_title_fix (fm : List (String × Value)) : List (String × Value) :=
  dset fm "title"
    (match (dget? fm "title").getD (Value.str "Untitled") with
     | Value.obj fs => (dget? fs "rendered").getD (Value.str "Untitled")
     | w => w)

/-- The frontmatter record as actually emitted for a content item:
`convert_post_to_md`'s dict after `save_as_markdown`'s title fix. -/
def emitted_frontmatter (handle : String → String) (post : List (String × Value))
    (authors : List (Nat × String)) (categories tags : List (Nat × Term))
    (custom_taxonomies : List (String × List (Nat × Term))) (post_type : String) :
    List (String × Value) :=
  save_title_fix (convert_frontmatter handle post authors categories tags custom_taxonomies post_type)

/-- Claim C1 is right about the intent but the code violates it: the
catch-all of line 150 excludes only
`content, excerpt, guid, _links, _embedded, acf`, so the raw `author`,
`categories`, `tags` (and `slug`) fields of the post are folded back in
and overwrite the resolved values.  At this concrete post the resolved
author name is "Alice" and the resolved category list is ["News"], yet
the emitted frontmatter holds the raw id 7 and the raw id list [5], and
the raw `slug` is duplicated alongside `custom_url`.  (The raw `title`
dict also overwrites the unwrapped title, but `save_as_markdown`
re-unwraps it before writing.) -/
theorem catch_all_overwrites_resolved_fields :
    (dget? (emitted_frontmatter (fun s => s)
        [("author", Value.nat 7),
         ("title", Value.obj [("rendered", Value.str "Hello")]),
         ("date", Value.str "2024-01-01"),
         ("categories", Value.list [Value.nat 5]),
         ("slug", Value.str "hello-world")]
        [(7, "Alice")] [(5, ⟨5, "News"⟩)] [] [] "post") "author" = some (Value.nat 7)) ∧
    (dget? (emitted_frontmatter (fun s => s)
        [("author", Value.nat 7),
         ("title", Value.obj [("rendered", Value.str "Hello")]),
         ("date", Value.str "2024-01-01"),
         ("categories", Value.list [Value.nat 5]),
         ("slug", Value.str "hello-world")]
        [(7, "Alice")] [(5, ⟨5, "News"⟩)] [] [] "post") "categories" =
      some (Value.list [Value.nat 5])) ∧
    (dget? (emitted_frontmatter (fun s => s)
        [("author", Value.nat 7),
         ("title", Value.obj [("rendered", Value.str "Hello")]),
         ("date", Value.str "2024-01-01"),
         ("categories", Value.list [Value.nat 5]),
         ("slug", Value.str "hello-world")]
        [(7, "Alice")] [(5, ⟨5, "News"⟩)] [] [] "post") "slug" =
      some (Value.str "hello-world")) ∧
    dgetD [(7, "Alice")] 7 "Unknown" = "Alice" ∧
    map_term_ids_to_names [5] [(5, ⟨5, "News"⟩)] = ["News"] ∧
    Value.nat 7 ≠ Value.str "Alice" := by
  refine ⟨rfl, rfl, rfl, rfl, rfl, ?_⟩
  intro hcontra
  exact Value.noConfusion hcontra

/-! ## Custom taxonomy fetching
(`fetch_custom_taxonomies` lines 169-200, `fetch_terms_by_taxonomy`
lines 163-167)

The taxonomy-listing response is `none` for a transport/parse failure
(the outer `except` arms, returning `{}`), or `some` of the listing's
key sequence.  `termPages` gives the per-taxonomy paginated term
responses.  The `try/except requests.exceptions.HTTPError` around
`taxonomy_terms[taxonomy] = fetch_terms_by_taxonomy(...)` (lines
185-189) is unreachable: `fetch_wordpress_data` catches `HTTPError`,
`JSONDecodeError` and every other `Exception` internally (lines 52-60)
and returns the data accumulated so far, so `fetch_terms_by_taxonomy`
never raises and the assignment always happens — on a failed fetch it
assigns the empty table built from the empty item list. -/

/-- `fetch_terms_by_taxonomy` (source lines 163-167): fetch all term
records and build `{term['id']: {'id': term['id'], 'name': term['name']}}`. -/
def fetch_terms_by_taxonomy (pages : List (PageResp Term)) : List (Nat × Term) :=
  (fetch_wordpress_data 100 pages).foldl (fun acc t => dset acc t.id ⟨t.id, t.name⟩) []

/-- `fetch_custom_taxonomies` (source lines 169-200): on a listing
failure return the empty table; otherwise drop the built-ins `category`
and `post_tag` and fetch each remaining taxonomy's terms in listing
order. -/
def fetch_custom_taxonomies (listing : Option (List String))
    (termPages : String → List (PageResp Term)) : List (String × List (Nat × Term)) :=
  match listing with
  | none => []
  | some taxs =>
    (taxs.filter (fun k => !(["category", "post_tag"].contains k))).map
      (fun tax => (tax, fetch_terms_by_taxonomy (termPages tax)))

/-- Claim C8 is right about the intent but the code violates it: when
fetching the terms of the custom taxonomy "genre" fails with an HTTP
error on page 1, "genre" is NOT absent from the returned table — it is
present, mapped to the empty table — because `fetch_wordpress_data`
swallows the error and returns `[]`, so the `except HTTPError: continue`
meant to skip the taxonomy (source lines 187-189) never fires.  The
other discovered taxonomy "series" is still fetched and present. -/
theorem failed_taxonomy_present_with_empty_table :
    fetch_custom_taxonomies (some ["genre", "series"])
        (fun t => if t = "genre" then [PageResp.err] else [PageResp.ok [⟨1, "S1"⟩]]) =
      [("genre", []), ("series", [(1, ⟨1, "S1"⟩)])] ∧
    ("genre", ([] : List (Nat × Term))) ∈
      fetch_custom_taxonomies (some ["genre", "series"])
        (fun t => if t = "genre" then [PageResp.err] else [PageResp.ok [⟨1, "S1"⟩]]) := by
  refine ⟨rfl, ?_⟩
  rw [show fetch_custom_taxonomies (some ["genre", "series"])
      (fun t => if t = "genre" then [PageResp.err] else [PageResp.ok [⟨1, "S1"⟩]]) =
      [("genre", []), ("series", [(1, ⟨1, "S1"⟩)])] from rfl]
  simp

/-! ## Frontmatter key order (claim C7) -/

/-- The fixed leading key sequence of the frontmatter dict (source lines
126-137). -/
def reservedKeys : List String :=
  ["title", "date", "author", "excerpt", "custom_url", "type", "categories", "tags"]

/-- The optional `acf` key contributed by source lines 140-142. -/
def acfKeyPart (post : List (String × Value)) : List String :=
  match dget? post "acf" with
  | some v => if truthy v then ["acf"] else []
  | none => []

lemma dhas_iff_mem_dkeys {α β : Type} [BEq α] [LawfulBEq α] (d : List (α × β)) (k : α) :
    dhas d k = true ↔ k ∈ dkeys d := by
  simp [dhas, dkeys, List.any_eq_true, beq_iff_eq]

lemma contains_iff_own {l : List String} {a : String} : l.contains a = true ↔ a ∈ l :=
  List.elem_iff

lemma dkeys_map_overwrite {α β : Type} [BEq α] [LawfulBEq α]
    (d : List (α × β)) (k : α) (v : β) :
    dkeys (d.map (fun p => if p.1 == k then (k, v) else p)) = dkeys d := by
  unfold dkeys
  rw [List.map_map]
  apply map_congr_mem
  intro p _
  show (if p.1 == k then (k, v) else p).1 = p.1
  cases hbe : p.1 == k with
  | false => simp [hbe]
  | true =>
    simp only [hbe, if_true]
    exact (eq_of_beq hbe).symm

lemma dkeys_dset_of_mem {α β : Type} [BEq α] [LawfulBEq α]
    (d : List (α × β)) (k : α) (v : β) (h : k ∈ dkeys d) :
    dkeys (dset d k v) = dkeys d := by
  unfold dset
  rw [if_pos ((dhas_iff_mem_dkeys d k).mpr h)]
  exact dkeys_map_overwrite d k v

lemma dkeys_dset_of_not_mem {α β : Type} [BEq α] [LawfulBEq α]
    (d : List (α × β)) (k : α) (v : β) (h : k ∉ dkeys d) :
    dkeys (dset d k v) = dkeys d ++ [k] := by
  unfold dset
  rw [if_neg (fun hc => h ((dhas_iff_mem_dkeys d k).mp hc))]
  simp [dkeys]

lemma dkeys_update_fold (entries : List (String × Value)) :
    ∀ fm : List (String × Value), (dkeys entries).Nodup →
      dkeys (entries.foldl updateStep fm) =
        dkeys fm ++ (dkeys entries).filter (fun k => !((dkeys fm).contains k)) := by
  induction entries with
  | nil => intro fm _; simp [dkeys]
  | cons p t ih =>
    intro fm hnd
    have hnd' : (p.1 :: dkeys t).Nodup := hnd
    obtain ⟨hp1, hndt⟩ := List.nodup_cons.mp hnd'
    simp only [List.foldl_cons]
    by_cases hm : p.1 ∈ dkeys fm
    · have hk : dkeys (updateStep fm p) = dkeys fm := dkeys_dset_of_mem fm p.1 p.2 hm
      rw [ih (updateStep fm p) hndt, hk]
      congr 1
      rw [show dkeys (p :: t) = p.1 :: dkeys t from rfl, List.filter_cons]
      have hcont : ((dkeys fm).contains p.1) = true := contains_iff_own.mpr hm
      rw [hcont]
      simp
    · have hk : dkeys (updateStep fm p) = dkeys fm ++ [p.1] :=
        dkeys_dset_of_not_mem fm p.1 p.2 hm
      rw [ih (updateStep fm p) hndt, hk]
      rw [show dkeys (p :: t) = p.1 :: dkeys t from rfl, List.filter_cons]
      have hcont : ((dkeys fm).contains p.1) = false := by
        cases hc : (dkeys fm).contains p.1 with
        | false => rfl
        | true => exact absurd (contains_iff_own.mp hc) hm
      rw [hcont]
      simp only [Bool.not_false, if_true]
      rw [List.append_assoc, List.singleton_append]
      congr 2
      apply List.filter_congr
      intro k hk2
      have hkne : k ≠ p.1 := fun he => hp1 (he ▸ hk2)
      have hceq : ((dkeys fm ++ [p.1]).contains k) = ((dkeys fm).contains k) := by
        rw [Bool.eq_iff_iff, contains_iff_own, contains_iff_own, List.mem_append,
          List.mem_singleton]
        constructor
        · rintro (h | h)
          · exact h
          · exact absurd h hkne
        · exact Or.inl
      rw [hceq]

lemma dkeys_ctax_fold (post : List (String × Value))
    (ctax : List (String × List (Nat × Term))) :
    ∀ fm : List (String × Value), (dkeys ctax).Nodup →
      (∀ k ∈ dkeys ctax, k ∉ dkeys fm) →
      dkeys (ctax.foldl (ctaxStep post) fm) =
        dkeys fm ++ (dkeys ctax).filter (fun k => dhas post k) := by
  induction ctax with
  | nil => intro fm _ _; simp [dkeys]
  | cons p t ih =>
    intro fm hnd hdisj
    have hnd' : (p.1 :: dkeys t).Nodup := hnd
    obtain ⟨hp1, hndt⟩ := List.nodup_cons.mp hnd'
    simp only [List.foldl_cons]
    by_cases hm : dhas post p.1 = true
    · have hstep : ctaxStep post fm p = dset fm p.1
          (Value.list ((map_term_ids_to_names (getIds (dget? post p.1)) p.2).map Value.str)) := by
        unfold ctaxStep
        rw [if_pos hm]
      have hknotin : p.1 ∉ dkeys fm :=
        hdisj p.1 (List.mem_cons_self p.1 (dkeys t))
      have hk : dkeys (ctaxStep post fm p) = dkeys fm ++ [p.1] := by
        rw [hstep]
        exact dkeys_dset_of_not_mem _ _ _ hknotin
      rw [ih (ctaxStep post fm p) hndt ?hdisj2]
      case hdisj2 =>
        intro k hk2
        rw [hk]
        simp only [List.mem_append, List.mem_singleton]
        rintro (hc | hc)
        · exact hdisj k (List.mem_cons_of_mem _ hk2) hc
        · exact hp1 (hc ▸ hk2)
      rw [hk, List.append_assoc]
      congr 1
      rw [show dkeys (p :: t) = p.1 :: dkeys t from rfl, List.filter_cons, if_pos hm,
        List.singleton_append]
    · have hstep : ctaxStep post fm p = fm := by
        unfold ctaxStep
        rw [if_neg hm]
      rw [hstep, ih fm hndt (fun k hk2 => hdisj k (List.mem_cons_of_mem _ hk2))]
      congr 1
      rw [show dkeys (p :: t) = p.1 :: dkeys t from rfl, List.filter_cons, if_neg hm]

lemma dkeys_filter (post : List (String × Value)) (g : String → Bool) :
    dkeys (post.filter (fun p => g p.1)) = (dkeys post).filter g := by
  induction post with
  | nil => rfl
  | cons p t ih =>
    rw [List.filter_cons]
    by_cases hg : g p.1 = true
    · rw [if_pos hg]
      rw [show dkeys (p :: t.filter (fun p => g p.1)) = p.1 :: dkeys (t.filter (fun p => g p.1))
          from rfl]
      rw [ih, show dkeys (p :: t) = p.1 :: dkeys t from rfl, List.filter_cons, if_pos hg]
    · rw [if_neg hg, ih, show dkeys (p :: t) = p.1 :: dkeys t from rfl, List.filter_cons,
        if_neg hg]

lemma mem_acfKeyPart (post : List (String × Value)) (k : String)
    (h : k ∈ acfKeyPart post) : k = "acf" := by
  unfold acfKeyPart at h
  split at h
  · split at h
    · simpa using h
    · simp at h
  · simp at h

/-- Claim C7: whatever the key order of the source item record, the
emitted frontmatter's keys begin, in this exact order, with title, date,
author, excerpt, custom_url, type, categories, tags; then come the
optional `acf` key, the custom-taxonomy keys present on the item (in
taxonomy-table order), and finally the remaining metadata keys in item
order (those not consumed by the catch-all's exclusion list, not among
the fixed eight, and not custom taxonomies); in particular the first two
keys are always title then date.  (Hypotheses: the item and the taxonomy
table are dicts, so their keys are duplicate-free, and taxonomy names do
not collide with the fixed frontmatter keys.) -/
theorem frontmatter_key_order (handle : String → String) (post : List (String × Value))
    (authors : List (Nat × String)) (categories tags : List (Nat × Term))
    (custom_taxonomies : List (String × List (Nat × Term))) (post_type : String)
    (hp : (dkeys post).Nodup) (hc : (dkeys custom_taxonomies).Nodup)
    (hd : ∀ k ∈ dkeys custom_taxonomies, k ∉ reservedKeys ∧ k ≠ "acf") :
    dkeys (emitted_frontmatter handle post authors categories tags custom_taxonomies post_type) =
      reservedKeys ++ acfKeyPart post
        ++ (dkeys custom_taxonomies).filter (fun k => dhas post k)
        ++ (dkeys post).filter (fun k =>
              !(excludedKeys.contains k) &&
              (!(reservedKeys.contains k) && !((dkeys custom_taxonomies).contains k))) ∧
    (dkeys (emitted_frontmatter handle post authors categories tags
        custom_taxonomies post_type)).take 2 = ["title", "date"] := by
  have hterms : dkeys (fm_with_terms handle post authors categories tags post_type) =
      ["title", "date", "author", "excerpt", "custom_url", "type", "categories", "tags"] := by
    unfold fm_with_terms
    rw [dkeys_dset_of_not_mem, dkeys_dset_of_not_mem]
    · rfl
    all_goals first
      | exact (by decide : ("tags" : String) ∉
          (["title", "date", "author", "excerpt", "custom_url", "type", "categories"] :
            List String))
      | exact (by decide : ("categories" : String) ∉
          (["title", "date", "author", "excerpt", "custom_url", "type"] : List String))
  have hacf : dkeys (fm_with_acf handle post authors categories tags post_type) =
      ["title", "date", "author", "excerpt", "custom_url", "type", "categories", "tags"]
        ++ acfKeyPart post := by
    unfold fm_with_acf acfKeyPart
    split
    · next v _ =>
      by_cases ht : truthy v = true
      · rw [if_pos ht, if_pos ht, dkeys_dset_of_not_mem]
        · rw [hterms]
        · rw [hterms]
          decide
      · rw [if_neg ht, if_neg ht, hterms]
        simp
    · rw [hterms]
      simp
  have hdisj3 : ∀ k ∈ dkeys custom_taxonomies,
      k ∉ dkeys (fm_with_acf handle post authors categories tags post_type) := by
    intro k hk
    rw [hacf]
    simp only [List.mem_append]
    rintro (hmem | hmem)
    · exact (hd k hk).1 hmem
    · exact (hd k hk).2 (mem_acfKeyPart post k hmem)
  have hfm4 : dkeys (custom_taxonomies.foldl (ctaxStep post)
      (fm_with_acf handle post authors categories tags post_type)) =
      (["title", "date", "author", "excerpt", "custom_url", "type", "categories", "tags"]
        ++ acfKeyPart post)
        ++ (dkeys custom_taxonomies).filter (fun k => dhas post k) := by
    rw [dkeys_ctax_fold post custom_taxonomies _ hc hdisj3, hacf]
  have hdf : dkeys (post.filter (fun p => !(excludedKeys.contains p.1))) =
      (dkeys post).filter (fun k => !(excludedKeys.contains k)) :=
    dkeys_filter post (fun k => !(excludedKeys.contains k))
  have hnodupf : (dkeys (post.filter (fun p => !(excludedKeys.contains p.1)))).Nodup := by
    rw [hdf]
    exact hp.filter _
  have hconv : dkeys (convert_frontmatter handle post authors categories tags
      custom_taxonomies post_type) =
      ["title", "date", "author", "excerpt", "custom_url", "type", "categories", "tags"]
        ++ acfKeyPart post
        ++ (dkeys custom_taxonomies).filter (fun k => dhas post k)
        ++ (dkeys post).filter (fun k =>
              !(excludedKeys.contains k) &&
              (!(reservedKeys.contains k) && !((dkeys custom_taxonomies).contains k))) := by
    unfold convert_frontmatter
    rw [dkeys_update_fold _ _ hnodupf, hfm4, hdf, List.filter_filter]
    simp only [List.append_assoc]
    congr 1
    congr 1
    congr 1
    apply List.filter_congr
    intro k hkp
    show (!((["title", "date", "author", "excerpt", "custom_url", "type", "categories",
          "tags"] ++ (acfKeyPart post ++ (dkeys custom_taxonomies).filter
          (fun k => dhas post k))).contains k) && !(excludedKeys.contains k)) =
        (!(excludedKeys.contains k) &&
          (!(reservedKeys.contains k) && !((dkeys custom_taxonomies).contains k)))
    by_cases hex : k ∈ excludedKeys
    · have hext : excludedKeys.contains k = true := contains_iff_own.mpr hex
      rw [hext]
      simp only [Bool.not_true, Bool.and_false, Bool.false_and]
    · have hexc : excludedKeys.contains k = false := by
        cases hcc : excludedKeys.contains k with
        | false => rfl
        | true => exact absurd (contains_iff_own.mp hcc) hex
      have hbig : ((["title", "date", "author", "excerpt", "custom_url", "type",
            "categories", "tags"] ++ (acfKeyPart post
            ++ (dkeys custom_taxonomies).filter (fun k => dhas post k))).contains k)
          = (reservedKeys.contains k || (dkeys custom_taxonomies).contains k) := by
        rw [Bool.eq_iff_iff, contains_iff_own, Bool.or_eq_true, contains_iff_own,
          contains_iff_own]
        constructor
        · intro hmem
          rcases List.mem_append.mp hmem with hmem | hmem
          · exact Or.inl hmem
          · rcases List.mem_append.mp hmem with hmem | hmem
            · refine absurd (mem_acfKeyPart post k hmem) (fun he => hex ?_)
              rw [he]
              decide
            · exact Or.inr (List.mem_filter.mp hmem).1
        · rintro (hmem | hmem)
          · exact List.mem_append.mpr (Or.inl hmem)
          · exact List.mem_append.mpr (Or.inr (List.mem_append.mpr (Or.inr
              (List.mem_filter.mpr ⟨hmem, (dhas_iff_mem_dkeys post k).mpr hkp⟩))))
      rw [hbig, hexc, Bool.not_or]
      simp only [Bool.not_false, Bool.and_true, Bool.true_and]
  have htitle : "title" ∈ dkeys (convert_frontmatter handle post authors categories tags
      custom_taxonomies post_type) := by
    rw [hconv]
    exact List.mem_append.mpr (Or.inl (List.mem_append.mpr (Or.inl
      (List.mem_append.mpr (Or.inl (by decide))))))
  have hemit : dkeys (emitted_frontmatter handle post authors categories tags
      custom_taxonomies post_type) = dkeys (convert_frontmatter handle post authors
      categories tags custom_taxonomies post_type) := by
    unfold emitted_frontmatter save_title_fix
    exact dkeys_dset_of_mem _ _ _ htitle
  refine ⟨hemit.trans hconv, ?_⟩
  rw [hemit.trans hconv]
  rfl

/-- Witness for C7: a post whose keys arrive in the order date, title,
slug, author, genre, content (with a custom taxonomy `genre`): the
emitted keys are the fixed eight, then `genre`, then the remaining new
key `slug`; the first two keys are title then date. -/
theorem frontmatter_key_order_witness :
    dkeys (emitted_frontmatter (fun s => s)
        [("date", Value.str "2024-01-01"),
         ("title", Value.obj [("rendered", Value.str "Hi")]),
         ("slug", Value.str "hi"),
         ("author", Value.nat 1),
         ("genre", Value.list [Value.nat 3]),
         ("content", Value.obj [("rendered", Value.str "<p>x</p>")])]
        [(1, "Alice")] [] [] [("genre", [(3, ⟨3, "Rock"⟩)])] "post") =
      ["title", "date", "author", "excerpt", "custom_url", "type", "categories", "tags",
       "genre", "slug"] ∧
    (dkeys (emitted_frontmatter (fun s => s)
        [("date", Value.str "2024-01-01"),
         ("title", Value.obj [("rendered", Value.str "Hi")]),
         ("slug", Value.str "hi"),
         ("author", Value.nat 1),
         ("genre", Value.list [Value.nat 3]),
         ("content", Value.obj [("rendered", Value.str "<p>x</p>")])]
        [(1, "Alice")] [] [] [("genre", [(3, ⟨3, "Rock"⟩)])] "post")).take 2 =
      ["title", "date"] := by
  have h := frontmatter_key_order (fun s => s)
    [("date", Value.str "2024-01-01"),
     ("title", Value.obj [("rendered", Value.str "Hi")]),
     ("slug", Value.str "hi"),
     ("author", Value.nat 1),
     ("genre", Value.list [Value.nat 3]),
     ("content", Value.obj [("rendered", Value.str "<p>x</p>")])]
    [(1, "Alice")] [] [] [("genre", [(3, ⟨3, "Rock"⟩)])] "post"
    (by decide) (by decide) (by decide)
  exact ⟨h.1.trans (by decide), h.2⟩

end WpImport
